import Mathlib

/-!
Shallow embedding of the download/authentication core of the BiliDown
application (`core.py`, `gui.py`).  Network requests and subprocess runs are
modelled by passing the parsed response (or an oracle producing it) as an
explicit argument; the Python functions then become pure Lean functions on
those values.  Machine-level concerns (actual sockets, the file system) are
represented by explicit state or event traces.
-/

/- ===== Authenticator (`core.py`, `BiliAuthenticator.poll_login_status`) ===== -/

/-- The `data` object of the poll endpoint's JSON envelope:
`data['code']` and `data['message']`. -/
structure PollData where
  code : Int
  message : String
deriving DecidableEq

/-- The JSON envelope returned by the poll endpoint: outer `code` plus `data`.
The embedding assumes an outstanding challenge (`qrcode_key` set), i.e. the
guard raising "No QR code key" has already passed. -/
structure PollEnvelope where
  code : Int
  data : PollData
deriving DecidableEq

/-- `BiliAuthenticator.poll_login_status`: on outer code 0 it inspects the
inner `data['code']`; inner 0 yields `(0, "Login Success")`, any other inner
code is returned together with the server's `data['message']`; an outer
non-zero code yields `(-1, "Unknown Error")`. -/
def poll_login_status (r : PollEnvelope) : Int × String :=
  if r.code = 0 then
    if r.data.code = 0 then (0, "Login Success")
    else (r.data.code, r.data.message)
  else (-1, "Unknown Error")

/- ===== `BiliDownloader.get_user_info` (`core.py`) ===== -/

/-- The identity payload `data['data']` of the nav endpoint (fields the GUI
reads: `uname`, `face`). -/
structure NavData where
  uname : String
  face : String
deriving DecidableEq

/-- Outcome of the nav request as seen inside the `try` block:
either the request/JSON-parsing step raises, or a parsed envelope is
available with `data['code']`, `data['data']['isLogin']` and the payload. -/
inductive NavOutcome where
  | requestFail (exn : String)
  | parsed (code : Int) (isLogin : Bool) (data : NavData)
deriving DecidableEq

/-- The body of `get_user_info` without its enclosing `try/except`:
a raising step becomes `Except.error`, the normal returns become `Except.ok`. -/
def navRequestBody : NavOutcome → Except String (Option NavData)
  | NavOutcome.requestFail e => Except.error e
  | NavOutcome.parsed c l d => Except.ok (if c = 0 ∧ l = true then some d else none)

/-- `BiliDownloader.get_user_info`: the bare `except: return None` catches
every exception of the body, so the function is total and returns `none` on
any failure. -/
def get_user_info (o : NavOutcome) : Option NavData :=
  match navRequestBody o with
  | Except.error _ => none
  | Except.ok v => v

/- ===== `BiliDownloader.logout` (`core.py`) ===== -/

/-- The credential-bearing state `logout` mutates: the in-memory cookie jar of
the HTTP session and the presence of the pickled cookie store on disk. -/
structure SessionState where
  cookies : List (String × String)
  cookieFileExists : Bool
deriving DecidableEq

/-- `BiliDownloader.logout`: clears the session's cookie jar, then, when the
cookie file exists, attempts `os.remove` inside a `try/except` that swallows
the failure (printing only).  `removeOk` is the outcome of that OS call: when
it is `false` the exception is caught, `logout` still returns normally, and
the cookie file survives on disk. -/
def logout (removeOk : Bool) (s : SessionState) : SessionState :=
  let cleared : SessionState := { s with cookies := [] }
  if cleared.cookieFileExists then
    (if removeOk then { cleared with cookieFileExists := false } else cleared)
  else cleared

/- ===== `BiliDownloader.merge_video_audio` (`core.py`) ===== -/

/-- Destination a subprocess stream is redirected to (`subprocess.DEVNULL`,
inherited, or a capturing pipe). -/
inductive StdDest where
  | devnull
  | inherit
  | pipeDest
deriving DecidableEq

/-- What the caller can read back from a subprocess stream given its
redirection: only a capturing pipe retains the text. -/
def capturedFor (d : StdDest) (s : String) : Option String :=
  match d with
  | StdDest.pipeDest => some s
  | _ => none

/-- Result of one run of the external mux subprocess. -/
structure ProcOutcome where
  exitCode : Int
  stdoutText : String
  stderrText : String
deriving DecidableEq

/-- The `stdout=subprocess.DEVNULL` argument of the `check_call` in
`merge_video_audio`. -/
def ffmpegStdoutDest : StdDest := StdDest.devnull

/-- The `stderr=subprocess.DEVNULL` argument of the `check_call` in
`merge_video_audio`. -/
def ffmpegStderrDest : StdDest := StdDest.devnull

/-- `BiliDownloader.merge_video_audio`: `subprocess.check_call` raises
`CalledProcessError` (the spec's `MergeError`) exactly on a non-zero exit
status; nothing else in the function can fail in this embedding. -/
def merge_video_audio (r : ProcOutcome) : Except Int Unit :=
  if r.exitCode = 0 then Except.ok () else Except.error r.exitCode

/- ===== `BiliDownloader._extract_bvid` / `get_video_info` (`core.py`) ===== -/

/-- Python's `\w` character class restricted to the ASCII inputs the
application handles: letters, digits and underscore. -/
def isWordChar (c : Char) : Bool :=
  c.isAlphanum || c = '_'

/-- One attempt of the regex `BV\w+` at the head of the character list:
literal `B`, literal `V`, then a maximal non-empty run of word characters. -/
def matchBVAt : List Char → Option (List Char)
  | b :: v :: rest =>
    if b = 'B' ∧ v = 'V' then
      let w := rest.takeWhile isWordChar
      if w.isEmpty then none else some ('B' :: 'V' :: w)
    else none
  | _ => none

/-- `re.search(r'(BV\w+)', text)`: try the pattern at each position from the
left, returning the leftmost match. -/
def searchBV : List Char → Option (List Char)
  | [] => none
  | c :: rest =>
    match matchBVAt (c :: rest) with
    | some m => some m
    | none => searchBV rest

/-- `text.startswith('BV')`, computed on the character list so concrete
inputs evaluate by kernel reduction. -/
def startsWithBV (text : String) : Bool :=
  match text.toList with
  | b :: v :: _ => b = 'B' && v = 'V'
  | _ => false

/-- `BiliDownloader._extract_bvid`: the regex match when one exists, else the
whole text when it starts with `BV`, else `None`. -/
def extract_bvid (text : String) : Option String :=
  match searchBV text.toList with
  | some m => some (String.mk m)
  | none => if startsWithBV text then some text else none

/-- Spec error taxonomy for metadata resolution: `InvalidReferenceError`
(the `ValueError("Invalid URL or BVID")`) and `RemoteApiError` (the
`Exception(f"API Error: ...")`). -/
inductive ApiError where
  | invalidRef
  | remoteApi (code : Int) (message : String)
deriving DecidableEq

/-- Metadata payload of the view endpoint (fields the GUI reads). -/
structure VideoInfo where
  bvid : String
  cid : Nat
  title : String
  pic : String
deriving DecidableEq

/-- JSON envelope of the view endpoint. -/
structure ViewEnvelope where
  code : Int
  message : String
  data : VideoInfo
deriving DecidableEq

/-- `BiliDownloader.get_video_info`, with the view endpoint modelled by an
oracle from the extracted id to the parsed response.  The second component
counts the lookup requests issued: the invalid-reference failure happens
before any request. -/
def get_video_info (oracle : String → ViewEnvelope) (urlOrBvid : String) :
    Except ApiError VideoInfo × Nat :=
  match extract_bvid urlOrBvid with
  | none => (Except.error ApiError.invalidRef, 0)
  | some bvid =>
    let r := oracle bvid
    if r.code ≠ 0 then (Except.error (ApiError.remoteApi r.code r.message), 1)
    else (Except.ok r.data, 1)

/- ===== `MainWindow.analyze_video` (`gui.py`): trim + dedup ===== -/

/-- `line.strip()` on the ASCII whitespace the inputs contain. -/
def stripLine (s : String) : String :=
  String.mk (((s.toList.dropWhile Char.isWhitespace).reverse.dropWhile
    Char.isWhitespace).reverse)

/-- `raw_lines = [line.strip() for line in text.splitlines() if line.strip()]`:
trim every line, drop the ones that are empty after trimming. -/
def rawLines (input : List String) : List String :=
  (input.map stripLine).filter (fun s => decide (s ≠ ""))

/-- The deduplication key of one line:
`key = self.downloader._extract_bvid(line); if not key: key = line`. -/
def dedupKeyOf (line : String) : String :=
  match extract_bvid line with
  | some k => k
  | none => line

/-- The dedup loop of `analyze_video`: keep a line when its key is not in
`seen_keys`, recording the key; first occurrences survive in order. -/
def dedupAux : List String → List String → List String
  | [], _ => []
  | l :: ls, seen =>
    if dedupKeyOf l ∈ seen then dedupAux ls seen
    else l :: dedupAux ls (dedupKeyOf l :: seen)

/-- `unique_lines` as computed by `analyze_video` from the submitted lines. -/
def uniqueLines (input : List String) : List String :=
  dedupAux (rawLines input) []

/-- `self.stats_total_input = len(raw_lines)`. -/
def statsTotalInput (input : List String) : Nat :=
  (rawLines input).length

/-- `self.stats_duplicates = len(raw_lines) - len(unique_lines)`. -/
def statsDuplicates (input : List String) : Nat :=
  (rawLines input).length - (uniqueLines input).length

/-- Boundary condition for a maximal regex match: the character following the
match, when any, is not a word character. -/
def headNotWord (post : List Char) : Bool :=
  match post with
  | [] => true
  | c :: _ => !isWordChar c

/-- A concrete view-endpoint oracle used by witnesses. -/
def demoViewOracle : String → ViewEnvelope :=
  fun b => ⟨0, "0", ⟨b, 1, "title", "pic"⟩⟩

/-- The batch submission of the deduplication example. -/
def demoBatchInput : List String :=
  ["BV1abc...", "  https://x/video/BV1abc...", "", "BV1xyz...  "]

/- ===== `MainWindow.fetch_batch_info` / `on_batch_info_received` ===== -/

/-- `MainWindow.fetch_batch_info`: one metadata attempt per URL, the
per-entry `try/except` turning a failure into `None` (here the view endpoint
attempt per URL is an oracle returning the metadata or `none` on failure). -/
def fetch_batch_info (oracle : String → Option VideoInfo) (urls : List String) :
    List (Option VideoInfo) :=
  urls.map oracle

/-- `valid_infos` of `on_batch_info_received`: the non-`None` results in
order. -/
def validInfos (results : List (Option VideoInfo)) : List VideoInfo :=
  results.filterMap (fun x => x)

/-- `success_count = len(valid_infos)`. -/
def successCount (results : List (Option VideoInfo)) : Nat :=
  (validInfos results).length

/-- `failed_count = len(results) - success_count`. -/
def failedCount (results : List (Option VideoInfo)) : Nat :=
  results.length - successCount results

/-- The `if not valid_infos:` branch of `on_batch_info_received` that fails
the whole batch (`on_error("Failed to fetch info for all videos")`, the
spec's `BatchResolutionError`). -/
def batchAllFailed (results : List (Option VideoInfo)) : Bool :=
  (validInfos results).isEmpty

/-- A concrete batch oracle for witnesses: the middle entry fails. -/
def demoBatchOracle : String → Option VideoInfo :=
  fun u => if u = "u2" then none else some ⟨u, 1, "title", "pic"⟩

/- ===== `MainWindow.process_next_download` (sequential download pass) ===== -/

/-- Observable actions of the sequential download pass for one queue entry:
a metadata re-fetch (`get_video_info` issued from `process_next_download`),
a stream resolution (`get_play_url` issued from `process_download_for_info`),
the start of a download (`DownloadWorker`), or skipping to the next entry
(`on_download_error`). -/
inductive DlEvent where
  | fetchInfo (idx : Nat)
  | resolveStream (idx : Nat)
  | download (idx : Nat)
  | skip (idx : Nat)
deriving DecidableEq

/-- The queue index an event concerns. -/
def eventIdx : DlEvent → Nat
  | DlEvent.fetchInfo i => i
  | DlEvent.resolveStream i => i
  | DlEvent.download i => i
  | DlEvent.skip i => i

/-- `process_download_for_info`: `get_play_url` is attempted; on success the
`DownloadWorker` starts, on error the entry is skipped. -/
def playEvents (playOk : Nat → Bool) (i : Nat) : List DlEvent :=
  if playOk i then [DlEvent.resolveStream i, DlEvent.download i]
  else [DlEvent.resolveStream i, DlEvent.skip i]

/-- Events of `process_next_download` at queue index `i`: when
`current_info_map` has the entry, streams are resolved directly; otherwise a
second metadata fetch is issued (`oracle2` its outcome), leading either to
stream resolution or to `on_download_error` skipping the entry. -/
def indexEvents (infoMap : List (Option VideoInfo))
    (oracle2 : Nat → Option VideoInfo) (playOk : Nat → Bool) (i : Nat) :
    List DlEvent :=
  match infoMap.getD i none with
  | some _ => playEvents playOk i
  | none =>
    match oracle2 i with
    | some _ => DlEvent.fetchInfo i :: playEvents playOk i
    | none => [DlEvent.fetchInfo i, DlEvent.skip i]

/-- The whole sequential pass: `current_download_index` walks the queue from
0 to the end, one entry at a time. -/
def seqTrace (infoMap : List (Option VideoInfo))
    (oracle2 : Nat → Option VideoInfo) (playOk : Nat → Bool) : List DlEvent :=
  (List.range infoMap.length).flatMap (indexEvents infoMap oracle2 playOk)

/-- Retry oracle for the counterexample: the re-fetch succeeds. -/
def demoRetryOracle : Nat → Option VideoInfo :=
  fun _ => some ⟨"BVretry", 1, "title", "pic"⟩

/-- Retry oracle for the witness: the re-fetch fails again. -/
def demoNoRetryOracle : Nat → Option VideoInfo :=
  fun _ => none

/-- Stream resolution outcome used by counterexample and witness. -/
def demoPlayOk : Nat → Bool :=
  fun _ => true

/- ===== `MainWindow.on_play_url_received`: DASH quality selection ===== -/

/-- A DASH video track as the GUI reads it: `id` (the qualityId) and
`base_url`. -/
structure Track where
  id : Int
  base_url : String
deriving DecidableEq

/-- The descending order `on_play_url_received` sorts by:
`video_streams.sort(key=lambda x: x['id'], reverse=True)`. -/
def qGe (a b : Track) : Prop :=
  b.id ≤ a.id

instance : DecidableRel qGe :=
  fun a b => inferInstanceAs (Decidable (b.id ≤ a.id))

instance : IsTotal Track qGe :=
  ⟨fun a b => le_total b.id a.id⟩

instance : IsTrans Track qGe :=
  ⟨fun _ _ _ h1 h2 => le_trans h2 h1⟩

/-- The DASH video selection of `on_play_url_received`: sort the tracks
descending by id; the "Highest" sentinel 999 takes the first (maximum);
otherwise take the first track with `id ≤ target`, and when none qualifies
fall back to `video_streams[-1]`, the last (lowest) track. -/
def selectVideo (tracks : List Track) (targetQn : Int) : Option Track :=
  let sorted := List.insertionSort qGe tracks
  if targetQn = 999 then sorted.head?
  else
    match sorted.find? (fun s => decide (s.id ≤ targetQn)) with
    | some s => some s
    | none => sorted.getLast?

/-- The video track list of the quality-selection example
(qualityIds 127, 120, 80, 64). -/
def demoTracks : List Track :=
  [⟨127, "u127"⟩, ⟨120, "u120"⟩, ⟨80, "u80"⟩, ⟨64, "u64"⟩]

/- ===== `DownloadWorker` DASH progress (`gui.py`) ===== -/

/-- Cumulative `wrote` values at which `download_file` invokes the progress
callback: after each chunk of `iter_content`, `wrote += len(data)`. -/
def cumWrites (acc : Nat) : List Nat → List Nat
  | [] => []
  | c :: cs => (acc + c) :: cumWrites (acc + c) cs

/-- `_progress_callback_factory(start, end)`:
`p = start + (current / total) * (end - start)`, over exact rationals in
place of Python floats. -/
def segProgress (lo hi : ℚ) (total : Nat) (wrote : Nat) : ℚ :=
  lo + ((wrote : ℚ) / (total : ℚ)) * (hi - lo)

/-- The progress values one transfer emits, in order: `download_file` calls
the callback after every chunk, and the factory-produced callback emits only
when the reported total is known (non-zero). -/
def transferEmits (lo hi : ℚ) (chunks : List Nat) (total : Nat) : List ℚ :=
  if total = 0 then []
  else (cumWrites 0 chunks).map (segProgress lo hi total)

/-- All progress values a DASH job emits, in order (`DownloadWorker.run`):
the video transfer mapped onto 0–50, then the audio transfer mapped onto
50–95, then — only when the merge succeeds — the final
`self.progress.emit(100)`. -/
def dashTrace (vchunks achunks : List Nat) (vtotal atotal : Nat)
    (mergeOk : Bool) : List ℚ :=
  transferEmits 0 50 vchunks vtotal ++ transferEmits 50 95 achunks atotal ++
    (if mergeOk then [100] else [])

/- ===== Theorems ===== -/

/-- Helper: unfolding equation of `cumWrites` at a cons cell. -/
theorem cumWrites_cons (acc c : Nat) (cs : List Nat) :
    cumWrites acc (c :: cs) = (acc + c) :: cumWrites (acc + c) cs := rfl

/-- Helper: every cumulative write lies between the accumulator and the
accumulator plus the remaining bytes. -/
theorem cumWrites_bounds :
    ∀ (cs : List Nat) (acc : Nat), ∀ x ∈ cumWrites acc cs,
      acc ≤ x ∧ x ≤ acc + cs.sum := by
  intro cs
  induction cs with
  | nil => intro acc x hx; simp [cumWrites] at hx
  | cons c cs ih =>
    intro acc x hx
    rw [cumWrites_cons] at hx
    rcases List.mem_cons.mp hx with rfl | hx
    · rw [List.sum_cons]
      omega
    · have h := ih (acc + c) x hx
      rw [List.sum_cons]
      omega

/-- Helper: cumulative writes are non-decreasing. -/
theorem cumWrites_chain :
    ∀ (cs : List Nat) (acc : Nat),
      List.Chain' (fun a b => a ≤ b) (cumWrites acc cs) := by
  intro cs
  induction cs with
  | nil => intro acc; simp [cumWrites]
  | cons c cs ih =>
    intro acc
    rw [cumWrites_cons, List.chain'_cons']
    refine ⟨?_, ih (acc + c)⟩
    intro y hy
    exact (cumWrites_bounds cs (acc + c) y (List.mem_of_mem_head? hy)).1

/-- Helper: the per-transfer progress formula is monotone in the bytes
written. -/
theorem segProgress_mono (lo hi : ℚ) (total : Nat) (hpos : 0 < total)
    (hss : lo ≤ hi) (w1 w2 : Nat) (hw : w1 ≤ w2) :
    segProgress lo hi total w1 ≤ segProgress lo hi total w2 := by
  unfold segProgress
  have htot : (0 : ℚ) < (total : ℚ) := by exact_mod_cast hpos
  have hdiv : (w1 : ℚ) / (total : ℚ) ≤ (w2 : ℚ) / (total : ℚ) := by
    gcongr
  have h1 : (0 : ℚ) ≤ hi - lo := sub_nonneg.mpr hss
  have := mul_le_mul_of_nonneg_right hdiv h1
  linarith

/-- Helper: the per-transfer progress formula stays within its sub-range. -/
theorem segProgress_bounds (lo hi : ℚ) (total : Nat) (hpos : 0 < total)
    (hss : lo ≤ hi) (w : Nat) (hw : w ≤ total) :
    lo ≤ segProgress lo hi total w ∧ segProgress lo hi total w ≤ hi := by
  unfold segProgress
  have htot : (0 : ℚ) < (total : ℚ) := by exact_mod_cast hpos
  have hd0 : (0 : ℚ) ≤ (w : ℚ) / (total : ℚ) :=
    div_nonneg (by positivity) htot.le
  have hd1 : (w : ℚ) / (total : ℚ) ≤ 1 := by
    rw [div_le_one htot]
    exact_mod_cast hw
  have h1 : (0 : ℚ) ≤ hi - lo := sub_nonneg.mpr hss
  constructor
  · have := mul_nonneg hd0 h1
    linarith
  · have := mul_le_mul_of_nonneg_right hd1 h1
    linarith

/-- Helper: every emitted value of a transfer lies in its sub-range. -/
theorem transferEmits_bounds (lo hi : ℚ) (chunks : List Nat) (total : Nat)
    (hpos : 0 < total) (hsum : chunks.sum ≤ total) (hss : lo ≤ hi) :
    ∀ p ∈ transferEmits lo hi chunks total, lo ≤ p ∧ p ≤ hi := by
  intro p hp
  unfold transferEmits at hp
  rw [if_neg (Nat.pos_iff_ne_zero.mp hpos)] at hp
  rcases List.mem_map.mp hp with ⟨w, hw, rfl⟩
  have hb := cumWrites_bounds chunks 0 w hw
  exact segProgress_bounds lo hi total hpos hss w (by omega)

/-- Helper: the values a transfer emits are non-decreasing. -/
theorem transferEmits_chain (lo hi : ℚ) (chunks : List Nat) (total : Nat)
    (hss : lo ≤ hi) (hpos : 0 < total) :
    List.Chain' (fun p q => p ≤ q) (transferEmits lo hi chunks total) := by
  unfold transferEmits
  rw [if_neg (Nat.pos_iff_ne_zero.mp hpos)]
  rw [List.chain'_map]
  exact List.Chain'.imp
    (fun a b hab => segProgress_mono lo hi total hpos hss a b hab)
    (cumWrites_chain chunks 0)

/-- C7: for a DASH job whose two transfers report known positive totals (and
whose received bytes do not exceed them), the progress values delivered over
the job's lifetime are non-decreasing, the video transfer occupies the 0–50
sub-range and the audio transfer the 50–95 sub-range, and the value 100
appears exactly when the merge completes, as the final reported value. -/
theorem dash_progress_monotone (vchunks achunks : List Nat)
    (vtotal atotal : Nat) (mergeOk : Bool) (hv : 0 < vtotal) (ha : 0 < atotal)
    (hvs : vchunks.sum ≤ vtotal) (has : achunks.sum ≤ atotal) :
    List.Chain' (fun p q => p ≤ q)
      (dashTrace vchunks achunks vtotal atotal mergeOk) ∧
    (∀ p ∈ transferEmits 0 50 vchunks vtotal, 0 ≤ p ∧ p ≤ 50) ∧
    (∀ p ∈ transferEmits 50 95 achunks atotal, 50 ≤ p ∧ p ≤ 95) ∧
    ((100 : ℚ) ∈ dashTrace vchunks achunks vtotal atotal mergeOk ↔
      mergeOk = true) ∧
    (mergeOk = true →
      (dashTrace vchunks achunks vtotal atotal mergeOk).getLast? =
        some 100) := by
  have hvb := transferEmits_bounds 0 50 vchunks vtotal hv hvs (by norm_num)
  have hab := transferEmits_bounds 50 95 achunks atotal ha has (by norm_num)
  have hvc := transferEmits_chain 0 50 vchunks vtotal (by norm_num) hv
  have hac := transferEmits_chain 50 95 achunks atotal (by norm_num) ha
  have hlink : ∀ x ∈ (transferEmits 0 50 vchunks vtotal ++
      transferEmits 50 95 achunks atotal), x ≤ 95 := by
    intro x hx
    rcases List.mem_append.mp hx with h | h
    · linarith [(hvb x h).2]
    · exact (hab x h).2
  refine ⟨?_, hvb, hab, ⟨?_, ?_⟩, ?_⟩
  · unfold dashTrace
    rw [List.chain'_append]
    refine ⟨?_, ?_, ?_⟩
    · rw [List.chain'_append]
      refine ⟨hvc, hac, ?_⟩
      intro x hx y hy
      have hx50 := (hvb x (List.mem_of_mem_getLast? hx)).2
      linarith [(hab y (List.mem_of_mem_head? hy)).1]
    · cases mergeOk <;> simp
    · intro x hx y hy
      have hx95 := hlink x (List.mem_of_mem_getLast? hx)
      have hym := List.mem_of_mem_head? hy
      cases mergeOk with
      | true =>
        rw [if_pos rfl] at hym
        rcases List.mem_singleton.mp hym with rfl
        linarith
      | false => simp at hym
  · intro h100
    rcases List.mem_append.mp h100 with h | h
    · have := hlink 100 h
      linarith
    · cases mergeOk with
      | true => rfl
      | false => simp at h
  · intro hm
    unfold dashTrace
    rw [hm]
    exact List.mem_append_right _ (by simp)
  · intro hm
    unfold dashTrace
    rw [hm, if_pos rfl]
    exact List.getLast?_concat _

/-- Witness for C7 at a concrete two-chunk video transfer, two-chunk audio
transfer and successful merge. -/
theorem dash_progress_monotone_witness :
    List.Chain' (fun p q => p ≤ q)
      (dashTrace [512, 512] [700, 300] 1024 1000 true) ∧
    (dashTrace [512, 512] [700, 300] 1024 1000 true).getLast? = some 100 :=
  ⟨(dash_progress_monotone [512, 512] [700, 300] 1024 1000 true (by decide)
      (by decide) (by decide) (by decide)).1,
   (dash_progress_monotone [512, 512] [700, 300] 1024 1000 true (by decide)
      (by decide) (by decide) (by decide)).2.2.2.2 rfl⟩

/-- Helper: in a descending-sorted list the head dominates every member. -/
theorem head_max_of_sorted (l : List Track) (t : Track)
    (hs : List.Sorted qGe l) (hh : l.head? = some t) :
    ∀ u ∈ l, u.id ≤ t.id := by
  cases l with
  | nil => cases hh
  | cons a l =>
    rw [List.head?_cons] at hh
    cases hh
    intro u hu
    rcases List.mem_cons.mp hu with rfl | hu
    · exact le_refl _
    · exact (List.sorted_cons.mp hs).1 u hu

/-- Helper: in a descending-sorted list, the first track at or below the
target is maximal among all tracks at or below the target. -/
theorem find?_max_of_sorted (q : Int) :
    ∀ (l : List Track), List.Sorted qGe l →
      ∀ t, l.find? (fun s => decide (s.id ≤ q)) = some t →
        t.id ≤ q ∧ ∀ u ∈ l, u.id ≤ q → u.id ≤ t.id := by
  intro l
  induction l with
  | nil => intro _ t h; simp at h
  | cons a l ih =>
    intro hs t hf
    by_cases ha : a.id ≤ q
    · rw [List.find?_cons_of_pos _ (by simpa using ha)] at hf
      cases hf
      refine ⟨ha, ?_⟩
      intro u hu _
      rcases List.mem_cons.mp hu with rfl | hu
      · exact le_refl _
      · exact (List.sorted_cons.mp hs).1 u hu
    · rw [List.find?_cons_of_neg _ (by simpa using ha)] at hf
      have hrec := ih (List.sorted_cons.mp hs).2 t hf
      refine ⟨hrec.1, ?_⟩
      intro u hu huq
      rcases List.mem_cons.mp hu with rfl | hu
      · exact absurd huq ha
      · exact hrec.2 u hu huq

/-- Helper: in a descending-sorted list the last element is a minimum. -/
theorem getLast_min_of_sorted :
    ∀ (l : List Track), List.Sorted qGe l →
      ∀ t, l.getLast? = some t → ∀ u ∈ l, t.id ≤ u.id := by
  intro l
  induction l with
  | nil => intro _ t h; cases h
  | cons a l ih =>
    intro hs t hl u hu
    cases l with
    | nil =>
      rw [List.getLast?_singleton] at hl
      cases hl
      rcases List.mem_cons.mp hu with rfl | hu
      · exact le_refl _
      · cases hu
    | cons b l₂ =>
      rw [List.getLast?_cons_cons] at hl
      rcases List.mem_cons.mp hu with rfl | hu
      · have htmem : t ∈ b :: l₂ :=
          List.mem_of_mem_getLast? (Option.mem_def.mpr hl)
        exact (List.sorted_cons.mp hs).1 t htmem
      · exact ih (List.sorted_cons.mp hs).2 t hl u hu

/-- C1: for a non-empty DASH track list, the "Highest" sentinel (999) selects
a maximum-qualityId track; a non-sentinel target with at least one track at or
below it selects a track at or below the target that dominates every such
track (so an exact match is chosen when present, else the nearest lower tier);
a target below every track selects a minimum-qualityId track; and on tracks
[127, 120, 80, 64]: target 80 selects 80, target 100 selects 80, target 10
selects 64, and the sentinel selects 127. -/
theorem selectQuality_spec (tracks : List Track) (targetQn : Int)
    (hne : tracks ≠ []) :
    (targetQn = 999 → ∃ t, selectVideo tracks targetQn = some t ∧
      t ∈ tracks ∧ ∀ u ∈ tracks, u.id ≤ t.id) ∧
    (targetQn ≠ 999 → ∀ v ∈ tracks, v.id ≤ targetQn →
      ∃ t, selectVideo tracks targetQn = some t ∧ t ∈ tracks ∧
        t.id ≤ targetQn ∧ ∀ u ∈ tracks, u.id ≤ targetQn → u.id ≤ t.id) ∧
    (targetQn ≠ 999 → (∀ u ∈ tracks, targetQn < u.id) →
      ∃ t, selectVideo tracks targetQn = some t ∧ t ∈ tracks ∧
        ∀ u ∈ tracks, t.id ≤ u.id) ∧
    (Option.map Track.id (selectVideo demoTracks 80) = some 80 ∧
     Option.map Track.id (selectVideo demoTracks 100) = some 80 ∧
     Option.map Track.id (selectVideo demoTracks 10) = some 64 ∧
     Option.map Track.id (selectVideo demoTracks 999) = some 127) := by
  have hperm := List.perm_insertionSort qGe tracks
  have hsort := List.sorted_insertionSort qGe tracks
  have hmem : ∀ x, x ∈ List.insertionSort qGe tracks ↔ x ∈ tracks :=
    fun x => hperm.mem_iff
  have hSne : List.insertionSort qGe tracks ≠ [] := by
    intro h
    rw [h] at hperm
    exact hne (List.Perm.eq_nil hperm.symm)
  refine ⟨?_, ?_, ?_, by decide, by decide, by decide, by decide⟩
  · intro h999
    simp only [selectVideo, if_pos h999]
    cases hS : List.insertionSort qGe tracks with
    | nil => exact absurd hS hSne
    | cons a s =>
      refine ⟨a, rfl, ?_, ?_⟩
      · exact (hmem a).mp (hS ▸ List.mem_cons_self a s)
      · intro u hu
        have hu' : u ∈ List.insertionSort qGe tracks := (hmem u).mpr hu
        exact head_max_of_sorted _ a (hS ▸ hsort) (by rw [List.head?_cons])
          u (hS ▸ hu')
  · intro h999 v hv hvq
    have hfind : ((List.insertionSort qGe tracks).find?
        (fun s => decide (s.id ≤ targetQn))).isSome := by
      rw [List.find?_isSome]
      exact ⟨v, (hmem v).mpr hv, by simpa using hvq⟩
    rcases Option.isSome_iff_exists.mp hfind with ⟨t, ht⟩
    have hmax := find?_max_of_sorted targetQn _ hsort t ht
    refine ⟨t, ?_, ?_, hmax.1, ?_⟩
    · simp only [selectVideo, if_neg h999]
      rw [ht]
    · exact (hmem t).mp (List.mem_of_find?_eq_some ht)
    · intro u hu huq
      exact hmax.2 u ((hmem u).mpr hu) huq
  · intro h999 hall
    have hfind : (List.insertionSort qGe tracks).find?
        (fun s => decide (s.id ≤ targetQn)) = none := by
      rw [List.find?_eq_none]
      intro x hx
      simpa using not_le_of_lt (hall x ((hmem x).mp hx))
    have hlast : ∃ t, (List.insertionSort qGe tracks).getLast? = some t := by
      cases hS : List.insertionSort qGe tracks with
      | nil => exact absurd hS hSne
      | cons a s => exact ⟨(a :: s).getLast (by simp),
          List.getLast?_eq_getLast _ (by simp)⟩
    rcases hlast with ⟨t, ht⟩
    refine ⟨t, ?_, ?_, ?_⟩
    · simp only [selectVideo, if_neg h999]
      rw [hfind, ht]
    · exact (hmem t).mp (List.mem_of_mem_getLast? (Option.mem_def.mpr ht))
    · intro u hu
      exact getLast_min_of_sorted _ hsort t ht u ((hmem u).mpr hu)

/-- Witness for C1: on the example tracks with target 100 the selection
returns the nearest tier at or below the target. -/
theorem selectQuality_spec_witness :
    ∃ t, selectVideo demoTracks 100 = some t ∧ t ∈ demoTracks ∧
      t.id ≤ 100 ∧ ∀ u ∈ demoTracks, u.id ≤ 100 → u.id ≤ t.id :=
  (selectQuality_spec demoTracks 100 (by decide)).2.1 (by decide)
    ⟨80, "u80"⟩ (by decide) (by decide)

/-- Helper: a maximal word-run at the head of a list is what `takeWhile`
returns. -/
theorem takeWhile_word_append (w post : List Char) (hw : w.all isWordChar = true)
    (hpost : headNotWord post = true) :
    (w ++ post).takeWhile isWordChar = w := by
  induction w with
  | nil =>
    cases post with
    | nil => rfl
    | cons c cs =>
      simp only [headNotWord, Bool.not_eq_true'] at hpost
      simp [List.takeWhile, hpost]
  | cons a w ih =>
    simp only [List.all_cons, Bool.and_eq_true] at hw
    simp [List.takeWhile, hw.1, ih hw.2]

/-- Helper: unfolding equation of `searchBV` at a cons cell. -/
theorem searchBV_cons (c : Char) (rest : List Char) :
    searchBV (c :: rest) =
      match matchBVAt (c :: rest) with
      | some m => some m
      | none => searchBV rest := rfl

/-- Helper: unfolding equation of `matchBVAt` at two cons cells. -/
theorem matchBVAt_cons (b v : Char) (rest : List Char) :
    matchBVAt (b :: v :: rest) =
      if b = 'B' ∧ v = 'V' then
        (if (rest.takeWhile isWordChar).isEmpty then none
         else some ('B' :: 'V' :: rest.takeWhile isWordChar))
      else none := rfl

/-- Helper: `searchBV` finds the match at the first position where `BV\w+`
matches, given that no earlier position matches. -/
theorem searchBV_leftmost (pre w post : List Char) (hw : w ≠ [])
    (hword : w.all isWordChar = true) (hpost : headNotWord post = true)
    (hpre : ∀ j, j < pre.length →
      matchBVAt ((pre ++ 'B' :: 'V' :: w ++ post).drop j) = none) :
    searchBV (pre ++ 'B' :: 'V' :: w ++ post) = some ('B' :: 'V' :: w) := by
  induction pre with
  | nil =>
    have htake : (w ++ post).takeWhile isWordChar = w :=
      takeWhile_word_append w post hword hpost
    simp only [List.nil_append, List.cons_append]
    rw [searchBV_cons, matchBVAt_cons]
    rw [if_pos ⟨rfl, rfl⟩, htake]
    rw [if_neg (by simpa [List.isEmpty_iff] using hw)]
  | cons p ps ih =>
    have h0 := hpre 0 (Nat.succ_pos _)
    simp only [List.drop_zero] at h0
    simp only [List.cons_append]
    rw [searchBV_cons]
    simp only [List.cons_append] at h0
    rw [h0]
    exact ih fun j hj => by
      have h := hpre (j + 1) (Nat.succ_lt_succ hj)
      simpa [List.cons_append] using h

/-- C6: extraction finds a canonical identifier embedded anywhere in free
text — whenever the input decomposes as `pre ++ "BV" ++ w ++ post` with `w` a
non-empty maximal word-character run and no earlier `BV\w+` match, extraction
returns exactly that identifier — and whenever no pattern match exists and the
input does not start with `BV` (i.e. `_extract_bvid` yields `None`),
`get_video_info` fails with the spec's `InvalidReferenceError` having issued
no lookup request. -/
theorem extract_and_guard :
    (∀ (pre w post : List Char) (t : String),
      t.toList = pre ++ 'B' :: 'V' :: w ++ post →
      w ≠ [] →
      w.all isWordChar = true →
      headNotWord post = true →
      (∀ j, j < pre.length →
        matchBVAt ((pre ++ 'B' :: 'V' :: w ++ post).drop j) = none) →
      extract_bvid t = some (String.mk ('B' :: 'V' :: w))) ∧
    (∀ (oracle : String → ViewEnvelope) (t : String),
      extract_bvid t = none →
      get_video_info oracle t = (Except.error ApiError.invalidRef, 0)) := by
  constructor
  · intro pre w post t ht hw hword hpost hpre
    unfold extract_bvid
    rw [ht, searchBV_leftmost pre w post hw hword hpost hpre]
  · intro oracle t h
    unfold get_video_info
    rw [h]

/-- Witness for C6: the identifier is extracted from a URL, and an
identifier-free input is rejected before any request. -/
theorem extract_and_guard_witness :
    extract_bvid "https://site/video/BV1fK4y1t7Hj" =
      some (String.mk ('B' :: 'V' :: "1fK4y1t7Hj".toList)) ∧
    get_video_info demoViewOracle "no id here" =
      (Except.error ApiError.invalidRef, 0) :=
  ⟨extract_and_guard.1 "https://site/video/".toList "1fK4y1t7Hj".toList []
      "https://site/video/BV1fK4y1t7Hj" (by decide) (by decide) (by decide)
      (by decide) (by decide),
    extract_and_guard.2 demoViewOracle "no id here" (by decide)⟩

/-- Helper: indexing into the mapped result list recovers the per-entry
oracle outcome. -/
theorem getD_fetch_batch (oracle : String → Option VideoInfo) :
    ∀ (urls : List String) (i : Nat), i < urls.length →
      (fetch_batch_info oracle urls).getD i none = oracle (urls.getD i "") := by
  intro urls
  induction urls with
  | nil => intro i hi; simp at hi
  | cons u us ih =>
    intro i hi
    cases i with
    | zero => rfl
    | succ j =>
      simp only [fetch_batch_info, List.map_cons, List.getD_cons_succ]
      exact ih j (Nat.lt_of_succ_lt_succ hi)

/-- Helper: the batch fails as a whole exactly when every entry failed. -/
theorem batchAllFailed_iff (oracle : String → Option VideoInfo)
    (urls : List String) :
    batchAllFailed (fetch_batch_info oracle urls) = true ↔
      ∀ u ∈ urls, oracle u = none := by
  induction urls with
  | nil => simp [batchAllFailed, fetch_batch_info, validInfos]
  | cons u us ih =>
    cases h : oracle u with
    | some a =>
      simp [batchAllFailed, fetch_batch_info, validInfos, List.filterMap_cons,
        h, List.forall_mem_cons]
    | none =>
      simp [batchAllFailed, fetch_batch_info, validInfos,
        List.filterMap_cons, h, List.forall_mem_cons, ih]

/-- C4: every entry of a submitted batch is attempted (one per-entry result,
metadata or absent, in order), a single failing entry never aborts the rest,
the batch as a whole fails exactly when all entries fail to resolve, and a
3-item batch whose middle item alone fails reports 2 succeeded and 1
failed. -/
theorem batch_fault_isolation (oracle : String → Option VideoInfo)
    (urls : List String) :
    (fetch_batch_info oracle urls).length = urls.length ∧
    (∀ i, i < urls.length →
      (fetch_batch_info oracle urls).getD i none = oracle (urls.getD i "")) ∧
    (batchAllFailed (fetch_batch_info oracle urls) = true ↔
      ∀ u ∈ urls, oracle u = none) ∧
    (∀ u1 u2 u3, oracle u1 ≠ none → oracle u2 = none → oracle u3 ≠ none →
      successCount (fetch_batch_info oracle [u1, u2, u3]) = 2 ∧
      failedCount (fetch_batch_info oracle [u1, u2, u3]) = 1) := by
  refine ⟨by simp [fetch_batch_info], getD_fetch_batch oracle urls,
    batchAllFailed_iff oracle urls, ?_⟩
  intro u1 u2 u3 h1 h2 h3
  rcases Option.ne_none_iff_exists'.mp h1 with ⟨a1, ha1⟩
  rcases Option.ne_none_iff_exists'.mp h3 with ⟨a3, ha3⟩
  constructor
  · simp [successCount, validInfos, fetch_batch_info, List.filterMap_cons,
      ha1, h2, ha3]
  · simp [failedCount, successCount, validInfos, fetch_batch_info,
      List.filterMap_cons, ha1, h2, ha3]

/-- Witness for C4 at a concrete 3-item batch whose second entry fails. -/
theorem batch_fault_isolation_witness :
    successCount (fetch_batch_info demoBatchOracle ["u1", "u2", "u3"]) = 2 ∧
    failedCount (fetch_batch_info demoBatchOracle ["u1", "u2", "u3"]) = 1 :=
  (batch_fault_isolation demoBatchOracle ["u1", "u2", "u3"]).2.2.2 "u1" "u2"
    "u3" (by decide) (by decide) (by decide)

/-- Helper: an event of the per-index event list concerns that index. -/
theorem eventIdx_of_mem (infoMap : List (Option VideoInfo))
    (oracle2 : Nat → Option VideoInfo) (playOk : Nat → Bool) (j : Nat)
    (e : DlEvent) (he : e ∈ indexEvents infoMap oracle2 playOk j) :
    eventIdx e = j := by
  unfold indexEvents playEvents at he
  cases hm : infoMap.getD j none with
  | some v =>
    rw [hm] at he
    by_cases hp : playOk j = true
    · rw [if_pos hp] at he
      simp only [List.mem_cons, List.not_mem_nil, or_false] at he
      rcases he with rfl | rfl <;> rfl
    · rw [if_neg hp] at he
      simp only [List.mem_cons, List.not_mem_nil, or_false] at he
      rcases he with rfl | rfl <;> rfl
  | none =>
    rw [hm] at he
    cases h2 : oracle2 j with
    | some v =>
      rw [h2] at he
      by_cases hp : playOk j = true
      · rw [if_pos hp] at he
        simp only [List.mem_cons, List.not_mem_nil, or_false] at he
        rcases he with rfl | rfl | rfl <;> rfl
      · rw [if_neg hp] at he
        simp only [List.mem_cons, List.not_mem_nil, or_false] at he
        rcases he with rfl | rfl | rfl <;> rfl
    | none =>
      rw [h2] at he
      simp only [List.mem_cons, List.not_mem_nil, or_false] at he
      rcases he with rfl | rfl <;> rfl

/-- C2 counterexample: the claim says a first-pass-failed entry never reaches
the sequential download stage (no second metadata fetch, no download), but on
the concrete one-entry batch whose first-pass metadata is absent,
`process_next_download` issues a second metadata fetch and — the re-fetch
succeeding — starts a download. -/
theorem failed_entry_refetched_cex :
    seqTrace [none] demoRetryOracle demoPlayOk =
      [DlEvent.fetchInfo 0, DlEvent.resolveStream 0, DlEvent.download 0] ∧
    DlEvent.fetchInfo 0 ∈ seqTrace [none] demoRetryOracle demoPlayOk ∧
    DlEvent.download 0 ∈ seqTrace [none] demoRetryOracle demoPlayOk := by
  refine ⟨rfl, ?_, ?_⟩ <;> decide

/-- C2 amended: an entry whose metadata failed in the first pass is recorded
as absent, but it still occupies a slot in the sequential pass, where a
second metadata fetch is issued for it; only when that re-fetch also fails is
the entry skipped with no stream resolution and no download attempt. -/
theorem batch_failed_entry_refetch (infoMap : List (Option VideoInfo))
    (oracle2 : Nat → Option VideoInfo) (playOk : Nat → Bool) (i : Nat)
    (hi : i < infoMap.length) (hfail : infoMap.getD i none = none) :
    DlEvent.fetchInfo i ∈ seqTrace infoMap oracle2 playOk ∧
    (oracle2 i = none →
      DlEvent.resolveStream i ∉ seqTrace infoMap oracle2 playOk ∧
      DlEvent.download i ∉ seqTrace infoMap oracle2 playOk ∧
      DlEvent.skip i ∈ seqTrace infoMap oracle2 playOk) := by
  have hmem : ∀ e, e ∈ indexEvents infoMap oracle2 playOk i →
      e ∈ seqTrace infoMap oracle2 playOk := by
    intro e hin
    exact List.mem_flatMap.mpr ⟨i, List.mem_range.mpr hi, hin⟩
  constructor
  · apply hmem
    unfold indexEvents
    rw [hfail]
    cases h2 : oracle2 i with
    | some v => exact List.mem_cons_self _ _
    | none => exact List.mem_cons_self _ _
  · intro h2
    have hidx : indexEvents infoMap oracle2 playOk i =
        [DlEvent.fetchInfo i, DlEvent.skip i] := by
      unfold indexEvents
      rw [hfail, h2]
    refine ⟨?_, ?_, ?_⟩
    · intro hmem'
      rcases List.mem_flatMap.mp hmem' with ⟨j, _, hje⟩
      have hj := eventIdx_of_mem infoMap oracle2 playOk j _ hje
      simp only [eventIdx] at hj
      subst hj
      rw [hidx] at hje
      simp at hje
    · intro hmem'
      rcases List.mem_flatMap.mp hmem' with ⟨j, _, hje⟩
      have hj := eventIdx_of_mem infoMap oracle2 playOk j _ hje
      simp only [eventIdx] at hj
      subst hj
      rw [hidx] at hje
      simp at hje
    · apply hmem
      rw [hidx]
      exact List.mem_cons_of_mem _ (List.mem_cons_self _ _)

/-- Witness for C2's amended claim on a concrete one-entry batch whose
re-fetch also fails. -/
theorem batch_failed_entry_refetch_witness :
    DlEvent.fetchInfo 0 ∈ seqTrace [none] demoNoRetryOracle demoPlayOk ∧
    DlEvent.resolveStream 0 ∉ seqTrace [none] demoNoRetryOracle demoPlayOk ∧
    DlEvent.download 0 ∉ seqTrace [none] demoNoRetryOracle demoPlayOk ∧
    DlEvent.skip 0 ∈ seqTrace [none] demoNoRetryOracle demoPlayOk :=
  ⟨(batch_failed_entry_refetch [none] demoNoRetryOracle demoPlayOk 0
      (by decide) rfl).1,
   (batch_failed_entry_refetch [none] demoNoRetryOracle demoPlayOk 0
      (by decide) rfl).2 rfl⟩

/-- Helper: the dedup loop keeps a subsequence of its input. -/
theorem dedupAux_sublist (ls : List String) :
    ∀ seen, (dedupAux ls seen).Sublist ls := by
  induction ls with
  | nil => intro seen; exact List.Sublist.refl []
  | cons l ls ih =>
    intro seen
    rw [dedupAux]
    by_cases h : dedupKeyOf l ∈ seen
    · rw [if_pos h]
      exact (ih seen).cons l
    · rw [if_neg h]
      exact (ih _).cons₂ l

/-- Helper: keys of survivors of the dedup loop were not already seen. -/
theorem dedupAux_key_not_seen (ls : List String) :
    ∀ seen, ∀ u ∈ dedupAux ls seen, dedupKeyOf u ∉ seen := by
  induction ls with
  | nil => intro seen u hu; simp [dedupAux] at hu
  | cons l ls ih =>
    intro seen u hu
    rw [dedupAux] at hu
    by_cases h : dedupKeyOf l ∈ seen
    · rw [if_pos h] at hu
      exact ih seen u hu
    · rw [if_neg h] at hu
      rcases List.mem_cons.mp hu with rfl | hu
      · exact h
      · have := ih _ u hu
        exact fun hc => this (List.mem_cons_of_mem _ hc)

/-- Helper: survivors of the dedup loop have pairwise distinct keys. -/
theorem dedupAux_pairwise (ls : List String) :
    ∀ seen, (dedupAux ls seen).Pairwise
      (fun a b => dedupKeyOf a ≠ dedupKeyOf b) := by
  induction ls with
  | nil => intro seen; simp [dedupAux]
  | cons l ls ih =>
    intro seen
    rw [dedupAux]
    by_cases h : dedupKeyOf l ∈ seen
    · rw [if_pos h]; exact ih seen
    · rw [if_neg h]
      refine List.Pairwise.cons ?_ (ih _)
      intro u hu
      have := dedupAux_key_not_seen ls _ u hu
      exact fun hc => this (hc ▸ List.mem_cons_self _ _)

/-- Helper: every input line's key is either already seen or represented by a
survivor. -/
theorem dedupAux_covers (ls : List String) :
    ∀ seen, ∀ l ∈ ls, dedupKeyOf l ∈ seen ∨
      ∃ u ∈ dedupAux ls seen, dedupKeyOf u = dedupKeyOf l := by
  induction ls with
  | nil => intro seen l hl; simp at hl
  | cons a ls ih =>
    intro seen l hl
    rw [dedupAux]
    by_cases h : dedupKeyOf a ∈ seen
    · rw [if_pos h]
      rcases List.mem_cons.mp hl with rfl | hl
      · exact Or.inl h
      · exact ih seen l hl
    · rw [if_neg h]
      rcases List.mem_cons.mp hl with heq | hl
      · exact Or.inr ⟨a, List.mem_cons_self _ _, by rw [heq]⟩
      · rcases ih (dedupKeyOf a :: seen) l hl with hseen | ⟨u, hu, hk⟩
        · rcases List.mem_cons.mp hseen with heq | hseen
          · exact Or.inr ⟨a, List.mem_cons_self _ _, heq.symm⟩
          · exact Or.inl hseen
        · exact Or.inr ⟨u, List.mem_cons_of_mem _ hu, hk⟩

/-- C5: `analyze_video` trims lines and drops empty ones, deduplicates the
remainder keyed by the extracted identifier (falling back to the raw line),
preserves first-occurrence order (the survivors form a subsequence with
pairwise-distinct keys covering every input key), and records
`duplicatesRemoved = totalInput - uniqueCount`; on the example batch (one URL
repeating the id of a bare id line) two unique jobs remain and one duplicate
is counted. -/
theorem dedup_spec (input : List String) :
    (uniqueLines input).Sublist (rawLines input) ∧
    (uniqueLines input).Pairwise (fun a b => dedupKeyOf a ≠ dedupKeyOf b) ∧
    (∀ l ∈ rawLines input, ∃ u ∈ uniqueLines input,
      dedupKeyOf u = dedupKeyOf l) ∧
    statsDuplicates input = statsTotalInput input - (uniqueLines input).length ∧
    (rawLines demoBatchInput =
      ["BV1abc...", "https://x/video/BV1abc...", "BV1xyz..."] ∧
     uniqueLines demoBatchInput = ["BV1abc...", "BV1xyz..."] ∧
     statsTotalInput demoBatchInput = 3 ∧
     statsDuplicates demoBatchInput = 1) := by
  refine ⟨dedupAux_sublist _ [], dedupAux_pairwise _ [], ?_, rfl,
    by decide, by decide, by decide, by decide⟩
  intro l hl
  rcases dedupAux_covers (rawLines input) [] l hl with h | h
  · simp at h
  · exact h

/-- Witness for C5: the duplicate URL of the example batch is represented by a
surviving job with the same extracted identifier. -/
theorem dedup_spec_witness :
    (∃ u ∈ uniqueLines demoBatchInput,
      dedupKeyOf u = dedupKeyOf "https://x/video/BV1abc...") ∧
    statsDuplicates demoBatchInput = 1 :=
  ⟨(dedup_spec demoBatchInput).2.2.1 "https://x/video/BV1abc..." (by decide),
    (dedup_spec demoBatchInput).2.2.2.2.2.2.2⟩

/-- C3: for every poll with an outstanding challenge and a well-formed
envelope (outer code 0), the returned pair passes the remote protocol's inner
status code through unchanged: inner code 0 yields the success result, and any
non-zero inner code (86101 awaiting scan, 86090 scanned, 86038 expired, or any
other) is returned together with the literal server message. -/
theorem poll_passthrough (r : PollEnvelope) (h : r.code = 0) :
    (poll_login_status r).1 = r.data.code ∧
    (r.data.code = 0 → poll_login_status r = (0, "Login Success")) ∧
    (r.data.code ≠ 0 → (poll_login_status r).2 = r.data.message) := by
  unfold poll_login_status
  rw [if_pos h]
  by_cases hc : r.data.code = 0
  · rw [if_pos hc]
    exact ⟨hc.symm, fun _ => rfl, fun hne => absurd hc hne⟩
  · rw [if_neg hc]
    exact ⟨rfl, fun h0 => absurd h0 hc, fun _ => rfl⟩

/-- Witness for C3 at a concrete expired-challenge response. -/
theorem poll_passthrough_witness :
    (poll_login_status ⟨0, ⟨86038, "QR code expired"⟩⟩).1 = 86038 ∧
    ((86038 : Int) = 0 →
      poll_login_status ⟨0, ⟨86038, "QR code expired"⟩⟩ = (0, "Login Success")) ∧
    ((86038 : Int) ≠ 0 →
      (poll_login_status ⟨0, ⟨86038, "QR code expired"⟩⟩).2 = "QR code expired") :=
  poll_passthrough ⟨0, ⟨86038, "QR code expired"⟩⟩ (by decide)

/-- C10: `get_user_info` never raises: every failing body outcome is caught
and mapped to `none`, and the identity payload is returned exactly when the
platform reports code 0 with the logged-in flag true. -/
theorem get_user_info_total (o : NavOutcome) :
    (∀ e, navRequestBody o = Except.error e → get_user_info o = none) ∧
    (∀ d, get_user_info o = some d ↔ o = NavOutcome.parsed 0 true d) := by
  cases o with
  | requestFail e =>
    refine ⟨fun _ _ => rfl, fun d => ?_⟩
    simp [get_user_info, navRequestBody]
  | parsed c l d0 =>
    constructor
    · intro e he
      simp [navRequestBody] at he
    · intro d
      simp only [get_user_info, navRequestBody]
      by_cases hc : c = 0 ∧ l = true
      · rw [if_pos hc]
        constructor
        · intro hsome
          cases hsome
          rw [hc.1, hc.2]
        · intro hparsed
          cases hparsed
          rfl
      · rw [if_neg hc]
        constructor
        · intro hnone
          exact absurd hnone (by simp)
        · intro hparsed
          cases hparsed
          exact absurd ⟨rfl, rfl⟩ hc

/-- C8 counterexample: the claim asserts the subprocess's stdout and stderr
"are captured for diagnostics rather than discarded", but `merge_video_audio`
redirects both to `subprocess.DEVNULL`, so at a concrete failing run with
non-empty stderr nothing is captured. -/
theorem merge_capture_cex :
    ffmpegStderrDest = StdDest.devnull ∧
    capturedFor ffmpegStderrDest "ffmpeg: invalid input" = none ∧
    capturedFor ffmpegStdoutDest "frame=1" = none ∧
    merge_video_audio ⟨1, "frame=1", "ffmpeg: invalid input"⟩ = Except.error 1 := by
  exact ⟨rfl, rfl, rfl, rfl⟩

/-- C8 amended: `merge_video_audio` fails with the spec's `MergeError`
(`CalledProcessError`) exactly when the mux subprocess exits non-zero, and the
subprocess's stdout and stderr are suppressed from the caller's UI by
redirection to the null device and thereby discarded, not captured. -/
theorem merge_error_on_nonzero_exit (r : ProcOutcome) :
    (merge_video_audio r = Except.error r.exitCode ↔ r.exitCode ≠ 0) ∧
    (merge_video_audio r = Except.ok () ↔ r.exitCode = 0) ∧
    (∀ s, capturedFor ffmpegStdoutDest s = none) ∧
    (∀ s, capturedFor ffmpegStderrDest s = none) := by
  unfold merge_video_audio
  by_cases h : r.exitCode = 0
  · rw [if_pos h]
    exact ⟨⟨fun hcontra => by simp at hcontra, fun hne => absurd h hne⟩,
      ⟨fun _ => h, fun _ => rfl⟩, fun _ => rfl, fun _ => rfl⟩
  · rw [if_neg h]
    exact ⟨⟨fun _ => h, fun _ => rfl⟩,
      ⟨fun hcontra => by simp at hcontra, fun h0 => absurd h0 h⟩,
      fun _ => rfl, fun _ => rfl⟩

/-- Witness for C8's amended claim at a concrete failing run. -/
theorem merge_error_on_nonzero_exit_witness :
    merge_video_audio ⟨1, "frame=2", "boom"⟩ = Except.error 1 ∧
    capturedFor ffmpegStderrDest "boom" = none :=
  ⟨(merge_error_on_nonzero_exit ⟨1, "frame=2", "boom"⟩).1.mpr (by decide),
    (merge_error_on_nonzero_exit ⟨1, "frame=2", "boom"⟩).2.2.2 "boom"⟩

/-- C9 counterexample: the claim asserts the persisted cookie-store file no
longer exists after every `logout()`, but when `os.remove` fails its
exception is swallowed and `logout` returns with the file still on disk:
at a concrete logged-in state with a failing removal, the file survives
(while the in-memory jar is still cleared). -/
theorem logout_stale_file_cex :
    (logout false ⟨[("SESSDATA", "secret")], true⟩).cookieFileExists = true ∧
    (logout false ⟨[("SESSDATA", "secret")], true⟩).cookies = [] :=
  ⟨rfl, rfl⟩

/-- C9 amended: after `logout` returns, the in-memory cookie jar is always
empty; the persisted cookie-store file no longer exists provided the OS file
removal succeeds, while a failed removal (exception swallowed) leaves the
file's presence on disk unchanged. -/
theorem logout_state_spec (removeOk : Bool) (s : SessionState) :
    (logout removeOk s).cookies = [] ∧
    (removeOk = true → (logout removeOk s).cookieFileExists = false) ∧
    (removeOk = false →
      (logout removeOk s).cookieFileExists = s.cookieFileExists) := by
  unfold logout
  by_cases h : s.cookieFileExists
  · cases removeOk <;> simp [h]
  · cases removeOk <;> simp [h]

/-- Witness for C10 at a concrete logged-in response and a concrete transport
failure. -/
theorem get_user_info_total_witness :
    get_user_info (NavOutcome.parsed 0 true ⟨"alice", "face.png"⟩) =
      some ⟨"alice", "face.png"⟩ ∧
    get_user_info (NavOutcome.requestFail "ConnectionError") = none :=
  ⟨((get_user_info_total (NavOutcome.parsed 0 true ⟨"alice", "face.png"⟩)).2
      ⟨"alice", "face.png"⟩).mpr rfl,
    (get_user_info_total (NavOutcome.requestFail "ConnectionError")).1
      "ConnectionError" rfl⟩

/-- Witness for C9's amended claim at a concrete logged-in session state
whose file removal succeeds. -/
theorem logout_state_spec_witness :
    (logout true ⟨[("SESSDATA", "secret")], true⟩).cookies = [] ∧
    (logout true ⟨[("SESSDATA", "secret")], true⟩).cookieFileExists = false :=
  ⟨(logout_state_spec true ⟨[("SESSDATA", "secret")], true⟩).1,
    (logout_state_spec true ⟨[("SESSDATA", "secret")], true⟩).2.1 rfl⟩
